import Mathlib

/-!
Shallow embedding of the LXD startup patch engine (lxd/patches.go):
the stage enumeration, the patch registry, `patch.apply`, `patchesGetNames`
and `patchesApply`, together with theorems about the engine claims.

Modelling conventions:
- Go errors created by `fmt.Errorf` are modelled by the inductive `GoError`;
  each `fmt.Errorf` call site in the engine gets its own constructor recording
  the format arguments, and `GoError.message` renders the exact Go message
  text.  A `%w` wrap keeps the inner error (`GoError.unwrap`).
- Patch bodies (`p.run(p.name, d)`) and the node store are external
  collaborators: an `Env` record supplies, per patch name, the outcome of the
  body (`runErr`), of `MarkPatchAsApplied` (`markErr`), and the outcome of
  `GetAppliedPatches` (`readErr`).  The persisted applied set is threaded
  explicitly as a `List String`; a successful mark appends the name.
- Execution is instrumented with an `Event` trace: `Event.run n` records that
  the body of patch `n` was invoked, `Event.mark n` that the applied-record
  write for `n` completed successfully.
-/

/-- The stages that patches can run at (Go `patchStage`, an `iota` enum). -/
inductive patchStage where
  | patchNoStageSet
  | patchPreDaemonStorage
  | patchPostDaemonStorage
  | patchPostNetworks
deriving DecidableEq

open patchStage

/-- Numeric value of a stage under Go `iota`, used by the `%d` verb. -/
def patchStageVal : patchStage → Nat
  | patchNoStageSet => 0
  | patchPreDaemonStorage => 1
  | patchPostDaemonStorage => 2
  | patchPostNetworks => 3

/-- A patch descriptor (Go `patch` struct).  The body `run` is an external
collaborator and is therefore supplied by the environment, keyed by the patch
name, rather than stored in the struct. -/
structure patch where
  name : String
  stage : patchStage
deriving DecidableEq

/-- Go `error` values produced by the engine.  Each constructor corresponds to
one `fmt.Errorf` call site (or to an error returned verbatim from a
collaborator, `base`). -/
inductive GoError where
  | base (s : String)
  | configNoStage (name : String) (stageVal : Nat)
  | failedApplying (name : String) (inner : GoError)
  | failedMarking (name : String) (inner : GoError)
deriving DecidableEq

/-- The text of a Go error, as rendered by `Error()`:
`configNoStage` comes from `fmt.Errorf("Patch %q has no stage set: %d", ...)`,
`failedApplying` from `fmt.Errorf("Failed applying patch %q: %w", ...)`,
`failedMarking` from `fmt.Errorf("Failed marking patch applied %q: %w", ...)`. -/
def GoError.message : GoError → String
  | .base s => s
  | .configNoStage n v => "Patch \"" ++ n ++ "\" has no stage set: " ++ toString v
  | .failedApplying n i => "Failed applying patch \"" ++ n ++ "\": " ++ i.message
  | .failedMarking n i => "Failed marking patch applied \"" ++ n ++ "\": " ++ i.message

/-- Go `errors.Unwrap`: only the `%w` wrappers expose an inner error. -/
def GoError.unwrap : GoError → Option GoError
  | .base _ => none
  | .configNoStage _ _ => none
  | .failedApplying _ i => some i
  | .failedMarking _ i => some i

/-- Trace events: `run n` is an invocation of the body of patch `n`
(`p.run(p.name, d)`), `mark n` a completed applied-record write
(`MarkPatchAsApplied(n)` returning nil). -/
inductive Event where
  | run (name : String)
  | mark (name : String)
deriving DecidableEq

/-- Environment supplied by the external collaborators for one invocation:
outcome of the store read `GetAppliedPatches`, and per patch name the outcome
of the patch body and of `MarkPatchAsApplied` (`none` means success). -/
structure Env where
  readErr : Option String
  runErr : String → Option String
  markErr : String → Option String

/-- Result of a runner call: the event trace, the persisted applied list
after the call, and the returned Go error (`none` is Go `nil`). -/
abbrev RunOut := List Event × List String × Option GoError

/-- Go `func (p *patch) apply(d *Daemon) error`: run the body; on body error
wrap it with the patch name; otherwise persist the applied-record and wrap a
persistence error with the patch name.  `st` is the persisted applied list. -/
def patch.apply (env : Env) (p : patch) (st : List String) : RunOut :=
  match env.runErr p.name with
  | some e => ([Event.run p.name], st, some (GoError.failedApplying p.name (GoError.base e)))
  | none =>
    match env.markErr p.name with
    | some e => ([Event.run p.name], st, some (GoError.failedMarking p.name (GoError.base e)))
    | none => ([Event.run p.name, Event.mark p.name], st ++ [p.name], none)

/-- The `for _, patch := range patches` loop of Go `patchesApply`:
`appliedPatches` is the list loaded once at the start of the invocation.
For each patch: an unset stage aborts with a configuration error; a name
already in the loaded list is skipped; otherwise the patch is applied and any
error aborts the loop. -/
def applyLoop (env : Env) (appliedPatches : List String) :
    List patch → List String → RunOut
  | [], st => ([], st, none)
  | p :: rest, st =>
    if p.stage = patchNoStageSet then
      ([], st, some (GoError.configNoStage p.name (patchStageVal p.stage)))
    else if appliedPatches.contains p.name then
      applyLoop env appliedPatches rest st
    else
      match patch.apply env p st with
      | (evs, st1, some e) => (evs, st1, some e)
      | (evs, st1, none) =>
        ((evs ++ (applyLoop env appliedPatches rest st1).1),
         (applyLoop env appliedPatches rest st1).2.1,
         (applyLoop env appliedPatches rest st1).2.2)

/-- Go `func patchesApply(d *Daemon, stage patchStage) error`: load the
applied names once (propagating a read error verbatim), then run the loop.
Note: faithful to the source, the `stage` argument is not consulted anywhere
in the body. -/
def patchesApply (reg : List patch) (env : Env) (st : List String)
    (stage : patchStage) : RunOut :=
  match env.readErr with
  | some e => ([], st, some (GoError.base e))
  | none => applyLoop env st reg st

/-- The loop of Go `patchesGetNames`: `names` starts as
`make([]string, len(patches))` (all zero values `""`); iteration `i` writes
`names[i] = patch.name` unless the stage is unset, in which case it
`continue`s, leaving the zero value in place. -/
def patchesGetNamesLoop : List patch → List String → Nat → List String
  | [], names, _ => names
  | p :: rest, names, i =>
    if p.stage = patchNoStageSet then
      patchesGetNamesLoop rest names (i + 1)
    else
      patchesGetNamesLoop rest (names.set i p.name) (i + 1)

/-- Go `func patchesGetNames() []string`, parametrised by the registry. -/
def patchesGetNames (reg : List patch) : List String :=
  patchesGetNamesLoop reg (List.replicate reg.length "") 0

/-- The shipped registry constant (Go `var patches = []patch{...}`), names and
stages exactly as in the source; bodies are external collaborators. -/
def patches : List patch :=
  [ ⟨"storage_lvm_skipactivation", patchPostDaemonStorage⟩,
    ⟨"clustering_drop_database_role", patchPostDaemonStorage⟩,
    ⟨"network_clear_bridge_volatile_hwaddr", patchPostDaemonStorage⟩,
    ⟨"move_backups_instances", patchPostDaemonStorage⟩,
    ⟨"network_ovn_enable_nat", patchPostDaemonStorage⟩,
    ⟨"network_ovn_remove_routes", patchPostDaemonStorage⟩,
    ⟨"network_fan_enable_nat", patchPostDaemonStorage⟩,
    ⟨"thinpool_typo_fix", patchPostDaemonStorage⟩,
    ⟨"vm_rename_uuid_key", patchPostDaemonStorage⟩,
    ⟨"db_nodes_autoinc", patchPreDaemonStorage⟩,
    ⟨"network_acl_remove_defaults", patchPostDaemonStorage⟩,
    ⟨"clustering_server_cert_trust", patchPreDaemonStorage⟩,
    ⟨"warnings_remove_empty_node", patchPostDaemonStorage⟩,
    ⟨"dnsmasq_entries_include_device_name", patchPostDaemonStorage⟩,
    ⟨"storage_missing_snapshot_records", patchPostDaemonStorage⟩,
    ⟨"storage_delete_old_snapshot_records", patchPostDaemonStorage⟩,
    ⟨"storage_zfs_drop_block_volume_filesystem_extension", patchPostDaemonStorage⟩,
    ⟨"storage_prefix_bucket_names_with_project", patchPostDaemonStorage⟩,
    ⟨"storage_move_custom_iso_block_volumes", patchPostDaemonStorage⟩,
    ⟨"zfs_set_content_type_user_property", patchPostDaemonStorage⟩,
    ⟨"storage_zfs_unset_invalid_block_settings", patchPostDaemonStorage⟩,
    ⟨"storage_zfs_unset_invalid_block_settings_v2", patchPostDaemonStorage⟩,
    ⟨"storage_unset_invalid_block_settings", patchPostDaemonStorage⟩,
    ⟨"candid_rbac_remove_config_keys", patchPreDaemonStorage⟩,
    ⟨"storage_set_volume_uuid", patchPostDaemonStorage⟩ ]

/-- An environment in which every collaborator call succeeds. -/
def cleanEnv : Env := ⟨none, fun _ => none, fun _ => none⟩

/-- An environment in which the body of the patch named `bad` fails with
message `m` and every other collaborator call succeeds. -/
def bodyFailEnv (bad m : String) : Env :=
  ⟨none, fun n => if n = bad then some m else none, fun _ => none⟩

/-- An environment in which `MarkPatchAsApplied` fails with message `m` for
the patch named `bad` and every other collaborator call succeeds. -/
def markFailEnv (bad m : String) : Env :=
  ⟨none, fun _ => none, fun n => if n = bad then some m else none⟩

/-- An environment in which the initial `GetAppliedPatches` read fails. -/
def readFailEnv (m : String) : Env :=
  ⟨some m, fun _ => none, fun _ => none⟩

section LoopLemmas


variable (env : Env) (A : List String)

theorem applyLoop_nil (st : List String) : applyLoop env A [] st = ([], st, none) := rfl

theorem applyLoop_unset {p : patch} (rest : List patch) (st : List String)
    (hs : p.stage = patchNoStageSet) :
    applyLoop env A (p :: rest) st =
      ([], st, some (GoError.configNoStage p.name 0)) := by
  simp [applyLoop, hs, patchStageVal]

theorem applyLoop_skip {p : patch} (rest : List patch) (st : List String)
    (hs : p.stage ≠ patchNoStageSet) (hc : p.name ∈ A) :
    applyLoop env A (p :: rest) st = applyLoop env A rest st := by
  simp [applyLoop, hs, hc]

theorem applyLoop_runFail {p : patch} {m : String} (rest : List patch) (st : List String)
    (hs : p.stage ≠ patchNoStageSet) (hc : p.name ∉ A)
    (hr : env.runErr p.name = some m) :
    applyLoop env A (p :: rest) st =
      ([Event.run p.name], st,
       some (GoError.failedApplying p.name (GoError.base m))) := by
  simp [applyLoop, hs, hc, patch.apply, hr]

theorem applyLoop_markFail {p : patch} {m : String} (rest : List patch) (st : List String)
    (hs : p.stage ≠ patchNoStageSet) (hc : p.name ∉ A)
    (hr : env.runErr p.name = none) (hm : env.markErr p.name = some m) :
    applyLoop env A (p :: rest) st =
      ([Event.run p.name], st,
       some (GoError.failedMarking p.name (GoError.base m))) := by
  simp [applyLoop, hs, hc, patch.apply, hr, hm]

theorem applyLoop_ok {p : patch} (rest : List patch) (st : List String)
    (hs : p.stage ≠ patchNoStageSet) (hc : p.name ∉ A)
    (hr : env.runErr p.name = none) (hm : env.markErr p.name = none) :
    applyLoop env A (p :: rest) st =
      (Event.run p.name :: Event.mark p.name ::
         (applyLoop env A rest (st ++ [p.name])).1,
       (applyLoop env A rest (st ++ [p.name])).2.1,
       (applyLoop env A rest (st ++ [p.name])).2.2) := by
  simp [applyLoop, hs, hc, patch.apply, hr, hm]

theorem applyLoop_append (reg2 : List patch) :
    ∀ (pre : List patch) (st evs : _) (st1 : List String),
      applyLoop env A pre st = (evs, st1, none) →
      applyLoop env A (pre ++ reg2) st =
        (evs ++ (applyLoop env A reg2 st1).1,
         (applyLoop env A reg2 st1).2.1,
         (applyLoop env A reg2 st1).2.2)
  | [], st, evs, st1, h => by
    rw [applyLoop_nil] at h
    injection h with h1 h23
    injection h23 with h2 h3
    subst h1; subst h2
    simp
  | p :: pre, st, evs, st1, h => by
    by_cases hs : p.stage = patchNoStageSet
    · rw [applyLoop_unset env A pre st hs] at h
      simp at h
    · by_cases hc : p.name ∈ A
      · rw [applyLoop_skip env A pre st hs hc] at h
        rw [List.cons_append, applyLoop_skip env A (pre ++ reg2) st hs hc]
        exact applyLoop_append reg2 pre st evs st1 h
      · cases hr : env.runErr p.name with
        | some m => rw [applyLoop_runFail env A pre st hs hc hr] at h; simp at h
        | none =>
          cases hm : env.markErr p.name with
          | some m => rw [applyLoop_markFail env A pre st hs hc hr hm] at h; simp at h
          | none =>
            rw [applyLoop_ok env A pre st hs hc hr hm] at h
            injection h with h1 h23
            injection h23 with h2 h3
            have hEq : applyLoop env A pre (st ++ [p.name]) =
                ((applyLoop env A pre (st ++ [p.name])).1, st1, none) :=
              Prod.ext rfl (Prod.ext h2 h3)
            rw [List.cons_append, applyLoop_ok env A (pre ++ reg2) st hs hc hr hm,
              applyLoop_append reg2 pre (st ++ [p.name]) _ st1 hEq]
            subst h1; simp

theorem applyLoop_store_mono :
    ∀ (reg : List patch) (st : List String) (x : String),
      x ∈ st → x ∈ (applyLoop env A reg st).2.1
  | [], st, x, hx => by simpa [applyLoop_nil] using hx
  | p :: reg, st, x, hx => by
    by_cases hs : p.stage = patchNoStageSet
    · simpa [applyLoop_unset env A reg st hs] using hx
    · by_cases hc : p.name ∈ A
      · rw [applyLoop_skip env A reg st hs hc]
        exact applyLoop_store_mono reg st x hx
      · cases hr : env.runErr p.name with
        | some m => simpa [applyLoop_runFail env A reg st hs hc hr] using hx
        | none =>
          cases hm : env.markErr p.name with
          | some m => simpa [applyLoop_markFail env A reg st hs hc hr hm] using hx
          | none =>
            rw [applyLoop_ok env A reg st hs hc hr hm]
            exact applyLoop_store_mono reg (st ++ [p.name]) x (List.mem_append_left _ hx)

theorem applyLoop_mark_run_ok :
    ∀ (reg : List patch) (st : List String) (n : String),
      Event.mark n ∈ (applyLoop env A reg st).1 →
      env.runErr n = none ∧ env.markErr n = none
  | [], st, n, h => by simp [applyLoop_nil] at h
  | p :: reg, st, n, h => by
    by_cases hs : p.stage = patchNoStageSet
    · simp [applyLoop_unset env A reg st hs] at h
    · by_cases hc : p.name ∈ A
      · rw [applyLoop_skip env A reg st hs hc] at h
        exact applyLoop_mark_run_ok reg st n h
      · cases hr : env.runErr p.name with
        | some m => simp [applyLoop_runFail env A reg st hs hc hr] at h
        | none =>
          cases hm : env.markErr p.name with
          | some m => simp [applyLoop_markFail env A reg st hs hc hr hm] at h
          | none =>
            rw [applyLoop_ok env A reg st hs hc hr hm] at h
            rcases List.mem_cons.mp h with h1 | h
            · exact absurd h1 (by simp)
            · rcases List.mem_cons.mp h with h2 | h
              · injection h2 with hn
                subst hn
                exact ⟨hr, hm⟩
              · exact applyLoop_mark_run_ok reg (st ++ [p.name]) n h

theorem applyLoop_mark_name :
    ∀ (reg : List patch) (st : List String) (n : String),
      Event.mark n ∈ (applyLoop env A reg st).1 →
      n ∈ reg.map patch.name
  | [], st, n, h => by simp [applyLoop_nil] at h
  | p :: reg, st, n, h => by
    by_cases hs : p.stage = patchNoStageSet
    · simp [applyLoop_unset env A reg st hs] at h
    · by_cases hc : p.name ∈ A
      · rw [applyLoop_skip env A reg st hs hc] at h
        exact List.mem_cons_of_mem _ (applyLoop_mark_name reg st n h)
      · cases hr : env.runErr p.name with
        | some m => simp [applyLoop_runFail env A reg st hs hc hr] at h
        | none =>
          cases hm : env.markErr p.name with
          | some m => simp [applyLoop_markFail env A reg st hs hc hr hm] at h
          | none =>
            rw [applyLoop_ok env A reg st hs hc hr hm] at h
            rcases List.mem_cons.mp h with h1 | h
            · exact absurd h1 (by simp)
            · rcases List.mem_cons.mp h with h2 | h
              · injection h2 with hn
                subst hn
                exact List.mem_cons_self _ _
              · exact List.mem_cons_of_mem _
                  (applyLoop_mark_name reg (st ++ [p.name]) n h)

theorem applyLoop_count_mark :
    ∀ (reg : List patch) (st : List String) (n : String),
      (applyLoop env A reg st).1.count (Event.mark n) ≤
        (reg.map patch.name).count n
  | [], st, n => by simp [applyLoop_nil]
  | p :: reg, st, n => by
    by_cases hs : p.stage = patchNoStageSet
    · simp [applyLoop_unset env A reg st hs]
    · by_cases hc : p.name ∈ A
      · rw [applyLoop_skip env A reg st hs hc]
        calc (applyLoop env A reg st).1.count (Event.mark n) ≤
              (reg.map patch.name).count n := applyLoop_count_mark reg st n
          _ ≤ ((p :: reg).map patch.name).count n := by
              simp [List.count_cons]
      · cases hr : env.runErr p.name with
        | some m => simp [applyLoop_runFail env A reg st hs hc hr, List.count_cons]
        | none =>
          cases hm : env.markErr p.name with
          | some m => simp [applyLoop_markFail env A reg st hs hc hr hm, List.count_cons]
          | none =>
            rw [applyLoop_ok env A reg st hs hc hr hm]
            by_cases hn : p.name = n
            · subst hn
              have ih := applyLoop_count_mark reg (st ++ [p.name]) p.name
              simp only [List.map_cons]
              simp [List.count_cons]
              omega
            · have ih := applyLoop_count_mark reg (st ++ [p.name]) n
              simp only [List.map_cons]
              simp [List.count_cons, hn]
              omega

theorem applyLoop_mark_in_store :
    ∀ (reg : List patch) (st : List String) (n : String),
      Event.mark n ∈ (applyLoop env A reg st).1 →
      n ∈ (applyLoop env A reg st).2.1
  | [], st, n, h => by simp [applyLoop_nil] at h
  | p :: reg, st, n, h => by
    by_cases hs : p.stage = patchNoStageSet
    · simp [applyLoop_unset env A reg st hs] at h
    · by_cases hc : p.name ∈ A
      · rw [applyLoop_skip env A reg st hs hc] at h ⊢
        exact applyLoop_mark_in_store reg st n h
      · cases hr : env.runErr p.name with
        | some m => simp [applyLoop_runFail env A reg st hs hc hr] at h
        | none =>
          cases hm : env.markErr p.name with
          | some m => simp [applyLoop_markFail env A reg st hs hc hr hm] at h
          | none =>
            rw [applyLoop_ok env A reg st hs hc hr hm] at h ⊢
            rcases List.mem_cons.mp h with h1 | h
            · exact absurd h1 (by simp)
            · rcases List.mem_cons.mp h with h2 | h
              · injection h2 with hn
                rw [hn]
                exact applyLoop_store_mono env A reg (st ++ [p.name]) p.name
                  (List.mem_append_right _ (List.mem_singleton.mpr rfl))
              · exact applyLoop_mark_in_store reg (st ++ [p.name]) n h

theorem applyLoop_none_stage_set :
    ∀ (reg : List patch) (st : List String),
      (applyLoop env A reg st).2.2 = none →
      ∀ p ∈ reg, p.stage ≠ patchNoStageSet
  | [], st, _, p, hp => by simp at hp
  | q :: reg, st, h, p, hp => by
    by_cases hs : q.stage = patchNoStageSet
    · rw [applyLoop_unset env A reg st hs] at h
      simp at h
    · rcases List.mem_cons.mp hp with h1 | hp
      · subst h1; exact hs
      · by_cases hc : q.name ∈ A
        · rw [applyLoop_skip env A reg st hs hc] at h
          exact applyLoop_none_stage_set reg st h p hp
        · cases hr : env.runErr q.name with
          | some m => rw [applyLoop_runFail env A reg st hs hc hr] at h; simp at h
          | none =>
            cases hm : env.markErr q.name with
            | some m => rw [applyLoop_markFail env A reg st hs hc hr hm] at h; simp at h
            | none =>
              rw [applyLoop_ok env A reg st hs hc hr hm] at h
              exact applyLoop_none_stage_set reg (st ++ [q.name]) h p hp

theorem applyLoop_none_names_in_store :
    ∀ (reg : List patch) (st : List String),
      (∀ a ∈ A, a ∈ st) →
      (applyLoop env A reg st).2.2 = none →
      ∀ p ∈ reg, p.name ∈ (applyLoop env A reg st).2.1
  | [], st, _, _, p, hp => by simp at hp
  | q :: reg, st, hA, h, p, hp => by
    by_cases hs : q.stage = patchNoStageSet
    · rw [applyLoop_unset env A reg st hs] at h
      simp at h
    · by_cases hc : q.name ∈ A
      · rw [applyLoop_skip env A reg st hs hc] at h ⊢
        rcases List.mem_cons.mp hp with h1 | hp
        · rw [h1]
          exact applyLoop_store_mono env A reg st q.name (hA _ hc)
        · exact applyLoop_none_names_in_store reg st hA h p hp
      · cases hr : env.runErr q.name with
        | some m => rw [applyLoop_runFail env A reg st hs hc hr] at h; simp at h
        | none =>
          cases hm : env.markErr q.name with
          | some m => rw [applyLoop_markFail env A reg st hs hc hr hm] at h; simp at h
          | none =>
            rw [applyLoop_ok env A reg st hs hc hr hm] at h ⊢
            have hA1 : ∀ a ∈ A, a ∈ st ++ [q.name] :=
              fun a ha => List.mem_append_left _ (hA a ha)
            rcases List.mem_cons.mp hp with h1 | hp
            · rw [h1]
              exact applyLoop_store_mono env A reg (st ++ [q.name]) q.name
                (List.mem_append_right _ (List.mem_singleton.mpr rfl))
            · exact applyLoop_none_names_in_store reg (st ++ [q.name]) hA1 h p hp

theorem applyLoop_skip_all :
    ∀ (reg : List patch) (st : List String),
      (∀ p ∈ reg, p.stage ≠ patchNoStageSet ∧ p.name ∈ A) →
      applyLoop env A reg st = ([], st, none)
  | [], st, _ => rfl
  | p :: reg, st, h => by
    obtain ⟨hs, hc⟩ := h p (List.mem_cons_self _ _)
    rw [applyLoop_skip env A reg st hs hc]
    exact applyLoop_skip_all reg st fun q hq => h q (List.mem_cons_of_mem _ hq)

theorem applyLoop_all_ok :
    ∀ (reg : List patch) (st : List String),
      (∀ p ∈ reg, p.stage ≠ patchNoStageSet) →
      (∀ p ∈ reg, env.runErr p.name = none ∧ env.markErr p.name = none) →
      (applyLoop env A reg st).2.2 = none
  | [], _, _, _ => rfl
  | p :: reg, st, hstages, heff => by
    have hs := hstages p (List.mem_cons_self _ _)
    obtain ⟨hr, hm⟩ := heff p (List.mem_cons_self _ _)
    have hstages1 := fun q hq => hstages q (List.mem_cons_of_mem _ hq)
    have heff1 := fun q hq => heff q (List.mem_cons_of_mem _ hq)
    by_cases hc : p.name ∈ A
    · rw [applyLoop_skip env A reg st hs hc]
      exact applyLoop_all_ok reg st hstages1 heff1
    · rw [applyLoop_ok env A reg st hs hc hr hm]
      exact applyLoop_all_ok reg (st ++ [p.name]) hstages1 heff1

theorem applyLoop_err_shape :
    ∀ (reg : List patch) (st : List String) (e : GoError),
      (∀ p ∈ reg, p.stage ≠ patchNoStageSet) →
      (applyLoop env A reg st).2.2 = some e →
      (∃ n m, e = GoError.failedApplying n (GoError.base m) ∧ env.runErr n = some m) ∨
      (∃ n m, e = GoError.failedMarking n (GoError.base m) ∧ env.markErr n = some m)
  | [], st, e, _, h => by simp [applyLoop_nil] at h
  | p :: reg, st, e, hstages, h => by
    have hs := hstages p (List.mem_cons_self _ _)
    have hstages1 := fun q hq => hstages q (List.mem_cons_of_mem _ hq)
    by_cases hc : p.name ∈ A
    · rw [applyLoop_skip env A reg st hs hc] at h
      exact applyLoop_err_shape reg st e hstages1 h
    · cases hr : env.runErr p.name with
      | some m =>
        rw [applyLoop_runFail env A reg st hs hc hr] at h
        injection h with he
        exact Or.inl ⟨p.name, m, he.symm, hr⟩
      | none =>
        cases hm : env.markErr p.name with
        | some m =>
          rw [applyLoop_markFail env A reg st hs hc hr hm] at h
          injection h with he
          exact Or.inr ⟨p.name, m, he.symm, hm⟩
        | none =>
          rw [applyLoop_ok env A reg st hs hc hr hm] at h
          exact applyLoop_err_shape reg (st ++ [p.name]) e hstages1 h

end LoopLemmas

theorem take_set_self (l : List String) (a : String) (k : Nat) :
    (l.set k a).take k = l.take k := by
  apply List.ext_getElem?
  intro j
  by_cases hj : j < k
  · rw [List.getElem?_take_of_lt hj, List.getElem?_take_of_lt hj,
      List.getElem?_set_ne (by omega)]
  · rw [List.getElem?_take_eq_none (by omega), List.getElem?_take_eq_none (by omega)]

theorem patchesGetNamesLoop_spec :
    ∀ (reg : List patch) (acc : List String) (k : Nat),
      acc.length = k + reg.length →
      (∀ j, k ≤ j → j < acc.length → acc[j]? = some "") →
      patchesGetNamesLoop reg acc k =
        acc.take k ++
          reg.map (fun p => if p.stage = patchNoStageSet then "" else p.name)
  | [], acc, k, hlen, _ => by
    simp only [List.length_nil] at hlen
    simp only [patchesGetNamesLoop, List.map_nil, List.append_nil]
    rw [List.take_of_length_le (by omega)]
  | p :: rest, acc, k, hlen, hfill => by
    have hk : k < acc.length := by simp at hlen; omega
    by_cases hs : p.stage = patchNoStageSet
    · rw [show patchesGetNamesLoop (p :: rest) acc k =
          patchesGetNamesLoop rest acc (k + 1) by simp [patchesGetNamesLoop, hs]]
      rw [patchesGetNamesLoop_spec rest acc (k + 1) (by simp at hlen ⊢; omega)
        (fun j hj hjl => hfill j (by omega) hjl)]
      rw [List.take_succ, hfill k le_rfl hk]
      simp [hs]
    · rw [show patchesGetNamesLoop (p :: rest) acc k =
          patchesGetNamesLoop rest (acc.set k p.name) (k + 1) by
            simp [patchesGetNamesLoop, hs]]
      rw [patchesGetNamesLoop_spec rest (acc.set k p.name) (k + 1)
        (by simp at hlen ⊢; omega)
        (fun j hj hjl => by
          rw [List.getElem?_set_ne (by omega)]
          exact hfill j (by omega) (by simpa using hjl))]
      rw [List.take_succ, List.getElem?_set_eq_of_lt p.name hk, take_set_self]
      simp [hs]

/-- The result of `patchesGetNames` seen index-by-index: every slot holds the
patch name, except unset-stage slots which keep the zero value. -/
theorem patchesGetNames_eq_map (reg : List patch) :
    patchesGetNames reg =
      reg.map (fun p => if p.stage = patchNoStageSet then "" else p.name) := by
  rw [patchesGetNames, patchesGetNamesLoop_spec reg _ 0 (by simp)
    (fun j _ hjl => by
      rw [List.getElem?_eq_getElem (by simpa using hjl)]
      simp)]
  simp

theorem marking_message_ne_applying_message (n1 n2 : String) (i1 i2 : GoError) :
    (GoError.failedMarking n1 i1).message ≠ (GoError.failedApplying n2 i2).message := by
  intro h
  have hd := congrArg String.data h
  simp only [GoError.message, String.data_append, List.append_assoc] at hd
  have h7 : ("Failed marking patch applied \"".data ++
        (n1.data ++ ("\": ".data ++ (GoError.message i1).data)))[7]? =
      ("Failed applying patch \"".data ++
        (n2.data ++ ("\": ".data ++ (GoError.message i2).data)))[7]? := by rw [hd]
  rw [List.getElem?_append_left (by decide),
    List.getElem?_append_left (by decide)] at h7
  simp at h7

/-- C1: the spec requires `patchesApply` to skip every patch whose stage
differs from the requested stage, so that calling the runner for stage B on a
registry `[q1(stage A), q2(stage B)]` executes only `q2`.  The code never
consults the `stage` argument: the result is identical for any two requested
stages, and in the spec's own scenario the stage-A patch `q1` is executed (and
marked) by the stage-B invocation. -/
theorem c1_stage_argument_ignored :
    (∀ (reg : List patch) (env : Env) (st : List String) (s1 s2 : patchStage),
        patchesApply reg env st s1 = patchesApply reg env st s2)
    ∧ patchesApply [⟨"q1", patchPreDaemonStorage⟩, ⟨"q2", patchPostDaemonStorage⟩]
        cleanEnv [] patchPostDaemonStorage =
      ([Event.run "q1", Event.mark "q1", Event.run "q2", Event.mark "q2"],
       ["q1", "q2"], none) :=
  ⟨fun _ _ _ _ _ => rfl, by decide⟩

/-- C2 counterexample: with registry `[a(valid, pending), b(no stage)]` the
invocation executes the body of `a` (and marks it) before returning the
configuration error naming `b`, contradicting the claim that no patch body at
all is executed. -/
theorem c2_counterexample :
    patchesApply [⟨"a", patchPreDaemonStorage⟩, ⟨"b", patchNoStageSet⟩]
        cleanEnv [] patchPreDaemonStorage =
      ([Event.run "a", Event.mark "a"], ["a"], some (GoError.configNoStage "b" 0))
    ∧ Event.run "a" ∈ (patchesApply [⟨"a", patchPreDaemonStorage⟩, ⟨"b", patchNoStageSet⟩]
        cleanEnv [] patchPreDaemonStorage).1 :=
  ⟨by decide, by decide⟩

/-- C2 (amended): if the registry contains a patch with an unset stage, then
once iteration reaches it (the patches before it having completed without
error), `patchesApply` returns the configuration error naming that patch and
executes nothing at or after it; the bodies of pending patches earlier in the
registry have already executed by that point (their events `evs` stand). -/
theorem c2_unset_stage_config_error (env : Env) (st : List String) (stage : patchStage)
    (pre rest : List patch) (p : patch) (evs : List Event) (st1 : List String)
    (hread : env.readErr = none)
    (hs : p.stage = patchNoStageSet)
    (hpre : applyLoop env st pre st = (evs, st1, none)) :
    patchesApply (pre ++ p :: rest) env st stage =
      (evs, st1, some (GoError.configNoStage p.name 0)) := by
  simp only [patchesApply, hread]
  rw [applyLoop_append env st (p :: rest) pre st evs st1 hpre,
    applyLoop_unset env st rest st1 hs]
  simp

theorem c2_unset_stage_config_error_witness :
    patchesApply [⟨"a", patchPreDaemonStorage⟩, ⟨"b", patchNoStageSet⟩,
        ⟨"c", patchPreDaemonStorage⟩] cleanEnv [] patchPreDaemonStorage =
      ([Event.run "a", Event.mark "a"], ["a"], some (GoError.configNoStage "b" 0)) :=
  c2_unset_stage_config_error cleanEnv [] patchPreDaemonStorage
    [⟨"a", patchPreDaemonStorage⟩] [⟨"c", patchPreDaemonStorage⟩]
    ⟨"b", patchNoStageSet⟩ [Event.run "a", Event.mark "a"] ["a"] rfl rfl (by decide)

/-- C3: an applied-record (`Event.mark`) is produced only when the patch body
succeeded and the store write succeeded; with distinct registry names a name
is marked at most once per invocation; and for every executed patch the mark
is positioned in the trace immediately after its own body and before every
event of the patches later in the registry. -/
theorem c3_mark_applied_discipline (env : Env) (reg : List patch) (st : List String)
    (stage : patchStage) (hread : env.readErr = none) :
    (∀ n, Event.mark n ∈ (patchesApply reg env st stage).1 →
        env.runErr n = none ∧ env.markErr n = none)
    ∧ ((reg.map patch.name).Nodup →
        ∀ n, (patchesApply reg env st stage).1.count (Event.mark n) ≤ 1)
    ∧ (∀ (pre rest : List patch) (p : patch) (evs : List Event) (st1 : List String),
        reg = pre ++ p :: rest →
        applyLoop env st pre st = (evs, st1, none) →
        p.stage ≠ patchNoStageSet → p.name ∉ st →
        env.runErr p.name = none → env.markErr p.name = none →
        (patchesApply reg env st stage).1 =
          evs ++ Event.run p.name :: Event.mark p.name ::
            (applyLoop env st rest (st1 ++ [p.name])).1) := by
  have hPA : patchesApply reg env st stage = applyLoop env st reg st := by
    simp [patchesApply, hread]
  refine ⟨?_, ?_, ?_⟩
  · intro n h
    rw [hPA] at h
    exact applyLoop_mark_run_ok env st reg st n h
  · intro hnd n
    rw [hPA]
    calc (applyLoop env st reg st).1.count (Event.mark n)
        ≤ (reg.map patch.name).count n := applyLoop_count_mark env st reg st n
      _ ≤ 1 := List.nodup_iff_count_le_one.mp hnd n
  · intro pre rest p evs st1 hreg hpre hs hc hr hm
    subst hreg
    rw [hPA, applyLoop_append env st (p :: rest) pre st evs st1 hpre,
      applyLoop_ok env st rest st1 hs hc hr hm]

theorem c3_mark_applied_discipline_witness :
    (patchesApply [⟨"p1", patchPostDaemonStorage⟩] cleanEnv []
        patchPostDaemonStorage).1 =
      [] ++ Event.run "p1" :: Event.mark "p1" ::
        (applyLoop cleanEnv [] [] ([] ++ ["p1"])).1 :=
  (c3_mark_applied_discipline cleanEnv [⟨"p1", patchPostDaemonStorage⟩] []
      patchPostDaemonStorage rfl).2.2
    [] [] ⟨"p1", patchPostDaemonStorage⟩ [] [] rfl rfl (by decide)
    (by decide) rfl rfl

/-- C4: when the body of a pending patch K fails, `patchesApply` returns the
wrapped error at once: the trace ends with K's body invocation (no event of
any later patch), the store keeps everything written so far, and every patch
marked before K is present in that store. -/
theorem c4_fail_fast (env : Env) (st : List String) (stage : patchStage)
    (pre rest : List patch) (K : patch) (evs : List Event) (st1 : List String)
    (m : String)
    (hread : env.readErr = none)
    (hpre : applyLoop env st pre st = (evs, st1, none))
    (hs : K.stage ≠ patchNoStageSet) (hc : K.name ∉ st)
    (hr : env.runErr K.name = some m) :
    patchesApply (pre ++ K :: rest) env st stage =
      (evs ++ [Event.run K.name], st1,
       some (GoError.failedApplying K.name (GoError.base m)))
    ∧ ∀ n, Event.mark n ∈ evs → n ∈ st1 := by
  constructor
  · simp only [patchesApply, hread]
    rw [applyLoop_append env st (K :: rest) pre st evs st1 hpre,
      applyLoop_runFail env st rest st1 hs hc hr]
  · intro n hn
    have h := applyLoop_mark_in_store env st pre st n (by rw [hpre]; exact hn)
    rwa [hpre] at h

theorem c4_fail_fast_witness :
    patchesApply [⟨"p1", patchPostDaemonStorage⟩, ⟨"k", patchPostDaemonStorage⟩,
        ⟨"p3", patchPostDaemonStorage⟩] (bodyFailEnv "k" "boom") []
        patchPostDaemonStorage =
      ([Event.run "p1", Event.mark "p1"] ++ [Event.run "k"], ["p1"],
       some (GoError.failedApplying "k" (GoError.base "boom"))) :=
  (c4_fail_fast (bodyFailEnv "k" "boom") [] patchPostDaemonStorage
    [⟨"p1", patchPostDaemonStorage⟩] [⟨"p3", patchPostDaemonStorage⟩]
    ⟨"k", patchPostDaemonStorage⟩ [Event.run "p1", Event.mark "p1"] ["p1"] "boom"
    rfl (by decide) (by decide) (by decide) (by decide)).1

/-- C5: if a first invocation succeeds, the persisted store contains every
registry name, so a second invocation (whose store read succeeds) skips every
patch via the applied set loaded at its start: it produces no event, changes
nothing, and succeeds. -/
theorem c5_idempotent (reg : List patch) (env1 env2 : Env) (st0 st1 : List String)
    (stage : patchStage) (evs1 : List Event)
    (h1 : patchesApply reg env1 st0 stage = (evs1, st1, none))
    (hread2 : env2.readErr = none) :
    patchesApply reg env2 st1 stage = ([], st1, none) := by
  cases hread1 : env1.readErr with
  | some m => simp [patchesApply, hread1] at h1
  | none =>
    have hA : applyLoop env1 st0 reg st0 = (evs1, st1, none) := by
      simpa [patchesApply, hread1] using h1
    have herr : (applyLoop env1 st0 reg st0).2.2 = none := by rw [hA]
    have hstages := applyLoop_none_stage_set env1 st0 reg st0 herr
    have hnames := applyLoop_none_names_in_store env1 st0 reg st0
      (fun _ ha => ha) herr
    have hnames1 : ∀ p ∈ reg, p.name ∈ st1 := fun p hp => by
      have h := hnames p hp
      rwa [hA] at h
    simp only [patchesApply, hread2]
    exact applyLoop_skip_all env2 st1 reg st1
      (fun p hp => ⟨hstages p hp, hnames1 p hp⟩)

theorem c5_idempotent_witness :
    patchesApply [⟨"w1", patchPostDaemonStorage⟩] cleanEnv ["w1"]
      patchPostDaemonStorage = ([], ["w1"], none) :=
  c5_idempotent [⟨"w1", patchPostDaemonStorage⟩] cleanEnv cleanEnv [] ["w1"]
    patchPostDaemonStorage [Event.run "w1", Event.mark "w1"] (by decide) rfl

/-- C6: when a patch body succeeds but the applied-record write fails,
`patchesApply` returns the marking-failure error for the stage, and that error
differs — both as a value and in its rendered message — from every body-failure
error for the same patch name. -/
theorem c6_mark_write_failure_distinct (env : Env) (st : List String)
    (stage : patchStage) (pre rest : List patch) (p : patch) (evs : List Event)
    (st1 : List String) (m : String)
    (hread : env.readErr = none)
    (hpre : applyLoop env st pre st = (evs, st1, none))
    (hs : p.stage ≠ patchNoStageSet) (hc : p.name ∉ st)
    (hr : env.runErr p.name = none) (hm : env.markErr p.name = some m) :
    patchesApply (pre ++ p :: rest) env st stage =
      (evs ++ [Event.run p.name], st1,
       some (GoError.failedMarking p.name (GoError.base m)))
    ∧ (∀ i : GoError, GoError.failedMarking p.name (GoError.base m) ≠
        GoError.failedApplying p.name i)
    ∧ (∀ i : GoError, (GoError.failedMarking p.name (GoError.base m)).message ≠
        (GoError.failedApplying p.name i).message) := by
  refine ⟨?_, fun i h => GoError.noConfusion h,
    fun i => marking_message_ne_applying_message _ _ _ _⟩
  simp only [patchesApply, hread]
  rw [applyLoop_append env st (p :: rest) pre st evs st1 hpre,
    applyLoop_markFail env st rest st1 hs hc hr hm]

theorem c6_mark_write_failure_distinct_witness :
    patchesApply [⟨"p", patchPostDaemonStorage⟩] (markFailEnv "p" "disk full") []
        patchPostDaemonStorage =
      ([] ++ [Event.run "p"], [],
       some (GoError.failedMarking "p" (GoError.base "disk full"))) :=
  (c6_mark_write_failure_distinct (markFailEnv "p" "disk full") []
    patchPostDaemonStorage [] [] ⟨"p", patchPostDaemonStorage⟩ [] [] "disk full"
    rfl rfl (by decide) (by decide) rfl (by decide)).1

/-- C7 counterexample: a body failure of the patch "p" yields the very same
error value whether the patch is tagged post-daemon-storage or
pre-daemon-storage, and its message is exactly
`Failed applying patch "p": boom` — so the wrapper carries the patch name but
cannot carry the patch's stage, contrary to the claim. -/
theorem c7_counterexample :
    (patchesApply [⟨"p", patchPostDaemonStorage⟩] (bodyFailEnv "p" "boom") []
        patchPostDaemonStorage).2.2 =
      some (GoError.failedApplying "p" (GoError.base "boom"))
    ∧ (patchesApply [⟨"p", patchPreDaemonStorage⟩] (bodyFailEnv "p" "boom") []
        patchPreDaemonStorage).2.2 =
      some (GoError.failedApplying "p" (GoError.base "boom"))
    ∧ (GoError.failedApplying "p" (GoError.base "boom")).message =
      "Failed applying patch \"p\": boom" :=
  ⟨by decide, by decide, by decide⟩

/-- C7 (amended): a body failure is returned wrapped with the patch name only
(not the stage), and the underlying error is kept unmodified inside the
wrapper: unwrapping returns it, and its message is the original one. -/
theorem c7_body_error_wrap (env : Env) (st : List String) (stage : patchStage)
    (pre rest : List patch) (p : patch) (evs : List Event) (st1 : List String)
    (m : String)
    (hread : env.readErr = none)
    (hpre : applyLoop env st pre st = (evs, st1, none))
    (hs : p.stage ≠ patchNoStageSet) (hc : p.name ∉ st)
    (hr : env.runErr p.name = some m) :
    (patchesApply (pre ++ p :: rest) env st stage).2.2 =
      some (GoError.failedApplying p.name (GoError.base m))
    ∧ (GoError.failedApplying p.name (GoError.base m)).unwrap =
      some (GoError.base m)
    ∧ (GoError.base m).message = m := by
  refine ⟨?_, rfl, rfl⟩
  simp only [patchesApply, hread]
  rw [applyLoop_append env st (p :: rest) pre st evs st1 hpre,
    applyLoop_runFail env st rest st1 hs hc hr]

theorem c7_body_error_wrap_witness :
    (patchesApply [⟨"p", patchPostDaemonStorage⟩] (bodyFailEnv "p" "oops") []
        patchPostDaemonStorage).2.2 =
      some (GoError.failedApplying "p" (GoError.base "oops"))
    ∧ (GoError.failedApplying "p" (GoError.base "oops")).unwrap =
      some (GoError.base "oops")
    ∧ (GoError.base "oops").message = "oops" :=
  c7_body_error_wrap (bodyFailEnv "p" "oops") [] patchPostDaemonStorage [] []
    ⟨"p", patchPostDaemonStorage⟩ [] [] "oops" rfl rfl (by decide) (by decide)
    (by decide)

/-- C8 counterexample: on the registry `[a(valid), b(no stage)]` the function
returns `["a", ""]` — the unset-stage patch leaves its zero-value slot in the
result, whose length is the registry length 2, not the number of valid-stage
patches 1. -/
theorem c8_counterexample :
    patchesGetNames [⟨"a", patchPreDaemonStorage⟩, ⟨"b", patchNoStageSet⟩] =
      ["a", ""]
    ∧ (patchesGetNames [⟨"a", patchPreDaemonStorage⟩, ⟨"b", patchNoStageSet⟩]).length ≠ 1 :=
  ⟨by decide, by decide⟩

/-- C8 (amended): `patchesGetNames` returns one slot per registry entry, in
registry order: a valid-stage patch contributes its name at its own index, and
an unset-stage patch leaves the zero value `""` at its index, so the length
always equals the registry length. -/
theorem c8_names_slots (reg : List patch) :
    (patchesGetNames reg).length = reg.length
    ∧ ∀ i : Nat, (patchesGetNames reg)[i]? =
        (reg[i]?).map (fun p => if p.stage = patchNoStageSet then "" else p.name) := by
  constructor
  · rw [patchesGetNames_eq_map, List.length_map]
  · intro i
    rw [patchesGetNames_eq_map, List.getElem?_map]

/-- C9 counterexample: a registry holding two patches named "x" produces no
configuration error at all: the invocation succeeds, the second occurrence is
silently applied again (its body runs a second time) and the name is recorded
twice. -/
theorem c9_counterexample :
    patchesApply [⟨"x", patchPostDaemonStorage⟩, ⟨"x", patchPostDaemonStorage⟩]
        cleanEnv [] patchPostDaemonStorage =
      ([Event.run "x", Event.mark "x", Event.run "x", Event.mark "x"],
       ["x", "x"], none) := by
  decide

/-- C9 (amended): the engine performs no duplicate-name detection: for every
registry — including one with repeated names — whose stages are all set, if
the store read and every body and record write succeed, `patchesApply`
returns nil rather than any configuration error. -/
theorem c9_no_duplicate_detection (reg : List patch) (env : Env)
    (st : List String) (stage : patchStage)
    (hread : env.readErr = none)
    (hstages : ∀ p ∈ reg, p.stage ≠ patchNoStageSet)
    (heff : ∀ p ∈ reg, env.runErr p.name = none ∧ env.markErr p.name = none) :
    (patchesApply reg env st stage).2.2 = none := by
  simp only [patchesApply, hread]
  exact applyLoop_all_ok env st reg st hstages heff

theorem c9_no_duplicate_detection_witness :
    (patchesApply [⟨"x", patchPostDaemonStorage⟩, ⟨"x", patchPostDaemonStorage⟩]
        cleanEnv [] patchPostDaemonStorage).2.2 = none :=
  c9_no_duplicate_detection
    [⟨"x", patchPostDaemonStorage⟩, ⟨"x", patchPostDaemonStorage⟩] cleanEnv []
    patchPostDaemonStorage rfl (by decide) (by decide)

/-- C10: every patch of the shipped registry carries the stage
pre-daemon-storage or post-daemon-storage (never the unset value), and
consequently an error returned by `patchesApply` over that registry can only
be the store-read error, a wrapped patch-body failure, or a wrapped
mark-applied write failure — never the unset-stage configuration error. -/
theorem c10_shipped_registry_stages :
    (∀ p ∈ patches,
        p.stage = patchPreDaemonStorage ∨ p.stage = patchPostDaemonStorage)
    ∧ ∀ (env : Env) (st : List String) (stage : patchStage) (e : GoError),
        (patchesApply patches env st stage).2.2 = some e →
        (∃ m, env.readErr = some m ∧ e = GoError.base m)
        ∨ (∃ n m, e = GoError.failedApplying n (GoError.base m) ∧
            env.runErr n = some m)
        ∨ (∃ n m, e = GoError.failedMarking n (GoError.base m) ∧
            env.markErr n = some m) := by
  have hstages : ∀ p ∈ patches,
      p.stage = patchPreDaemonStorage ∨ p.stage = patchPostDaemonStorage := by
    decide
  refine ⟨hstages, ?_⟩
  intro env st stage e h
  cases hread : env.readErr with
  | some m =>
    simp only [patchesApply, hread] at h
    injection h with he
    exact Or.inl ⟨m, rfl, he.symm⟩
  | none =>
    simp only [patchesApply, hread] at h
    have hset : ∀ p ∈ patches, p.stage ≠ patchNoStageSet := fun p hp => by
      rcases hstages p hp with h1 | h1 <;> simp [h1]
    exact Or.inr (applyLoop_err_shape env st patches st e hset h)

theorem c10_shipped_registry_stages_witness :
    (∃ m, (readFailEnv "db gone").readErr = some m ∧
        GoError.base "db gone" = GoError.base m)
    ∨ (∃ n m, GoError.base "db gone" = GoError.failedApplying n (GoError.base m) ∧
        (readFailEnv "db gone").runErr n = some m)
    ∨ (∃ n m, GoError.base "db gone" = GoError.failedMarking n (GoError.base m) ∧
        (readFailEnv "db gone").markErr n = some m) :=
  c10_shipped_registry_stages.2 (readFailEnv "db gone") [] patchPreDaemonStorage
    (GoError.base "db gone") (by decide)
